import Mathlib

/-!
A verification development for the cratetorrent sources
`src/cratetorrent/src/download.rs` (the per-piece block state machine) and
`src/cratetorrent/src/tracker.rs` (the tracker client).

Conventions of the shallow embedding:
* machine integers are `Nat` bit patterns; `% 4294967296` is inserted exactly
  where Rust `u32` arithmetic can wrap (release-mode wrapping semantics);
* a Rust panic (out-of-bounds indexing, `Option::unwrap` on `None`,
  `try_into().unwrap()` on a negative count) is modelled by an `Option`
  result being `none`;
* network receives are modelled by passing the sequence of datagram
  outcomes (`none` = timeout, `some bytes` = the bytes written into the
  receive buffer) as an explicit argument.
-/

/-- Modelled from the spec: the global constant `BLOCK_LEN` is defined in the
crate root (outside the provided sources); the spec fixes it at 16 KiB. -/
def BLOCK_LEN : Nat := 16384

/-- Modelled from the spec: `BlockInfo` (defined in the crate root, outside the
provided sources) is the value triple identifying a block; its `length` field
is determined by `offset` and the piece length and is used by no claim about
the two provided files, so it is omitted here.  Equality compares the
remaining fields, exactly as the derived Rust equality does on them. -/
structure BlockInfo where
  piece_index : Nat
  offset : Nat
deriving DecidableEq

/-- Modelled from the spec: the derived accessor `BlockInfo::index` (crate
root) yields the block index `offset / BLOCK_LEN`. -/
def BlockInfo.index (b : BlockInfo) : Nat := b.offset / BLOCK_LEN

/-- Modelled from the spec: `BlockInfo::new(piece_index, offset)` as called by
`pick_blocks`. -/
def BlockInfo.new (piece_index offset : Nat) : BlockInfo := ⟨piece_index, offset⟩

/-- The per-block state (`download.rs`, `enum Block`); `Free` is the default. -/
inductive Block where
  | Free
  | Requested
  | Received
deriving DecidableEq

/-- `download.rs`, `struct PieceDownload`: piece index, piece length in bytes,
and the block states. -/
structure PieceDownload where
  index : Nat
  length : Nat
  blocks : List Block
deriving DecidableEq

/-- `PieceDownload::new`: `blocks_count = (length + (BLOCK_LEN - 1)) / BLOCK_LEN`
computed in u32 arithmetic (the sum wraps modulo 2^32), then a vector of
`blocks_count` `Free` blocks. -/
def PieceDownload.new (index length : Nat) : PieceDownload :=
  let blocks_count : Nat := ((length + (BLOCK_LEN - 1)) % 4294967296) / BLOCK_LEN
  ⟨index, length, List.replicate blocks_count Block.Free⟩

/-- The offset `i as u32 * BLOCK_LEN` computed by `pick_blocks` (u32
arithmetic: the cast truncates, the product wraps). -/
def pickOffset (i : Nat) : Nat := ((i % 4294967296) * BLOCK_LEN) % 4294967296

/-- The loop of `PieceDownload::pick_blocks`: scan the blocks at ascending
index `i`, stop as soon as `picked` blocks have been returned, turn each
scanned `Free` block into `Requested` and record a `BlockInfo` for it.
Returns the picked list and the updated block vector. -/
def pickBlocksGo (index count : Nat) :
    List Block → Nat → Nat → List BlockInfo × List Block
  | [], _, _ => ([], [])
  | b :: bs, i, picked =>
    if picked = count then ([], b :: bs)
    else
      match b with
      | Block.Free =>
        let r := pickBlocksGo index count bs (i + 1) (picked + 1)
        (BlockInfo.new index (pickOffset i) :: r.1, Block.Requested :: r.2)
      | Block.Requested =>
        let r := pickBlocksGo index count bs (i + 1) picked
        (r.1, Block.Requested :: r.2)
      | Block.Received =>
        let r := pickBlocksGo index count bs (i + 1) picked
        (r.1, Block.Received :: r.2)

/-- `PieceDownload::pick_blocks`: returns the picked `BlockInfo` list and the
post-state. -/
def PieceDownload.pick_blocks (pd : PieceDownload) (count : Nat) :
    List BlockInfo × PieceDownload :=
  let r := pickBlocksGo pd.index count pd.blocks 0 0
  (r.1, { pd with blocks := r.2 })

/-- `PieceDownload::received_block`: sets `blocks[block.index()] = Received`.
The vector indexing is unguarded; an out-of-bounds index panics, modelled by
`none`.  (The `debug_assert!`s of the source are compiled out in release
builds and are not modelled.) -/
def PieceDownload.received_block (pd : PieceDownload) (b : BlockInfo) :
    Option PieceDownload :=
  if BlockInfo.index b < pd.blocks.length then
    some { pd with blocks := pd.blocks.set (BlockInfo.index b) Block.Received }
  else
    none

/-- `PieceDownload::free_block_count`: the number of `Free` blocks. -/
def PieceDownload.free_block_count (pd : PieceDownload) : Nat :=
  (pd.blocks.filter fun b => decide (b = Block.Free)).length

/-- Runs a sequence of `pick_blocks` calls (one per entry of the count list),
collecting each call's returned list. -/
def runPicks (pd : PieceDownload) : List Nat → List (List BlockInfo) × PieceDownload
  | [] => ([], pd)
  | c :: cs =>
    let r := pd.pick_blocks c
    let rest := runPicks r.2 cs
    (r.1 :: rest.1, rest.2)

/-- The indices (counted from `i`) of the `Free` blocks of a block list. -/
def freeIndicesFrom : List Block → Nat → List Nat
  | [], _ => []
  | Block.Free :: bs, i => i :: freeIndicesFrom bs (i + 1)
  | Block.Requested :: bs, i => freeIndicesFrom bs (i + 1)
  | Block.Received :: bs, i => freeIndicesFrom bs (i + 1)

theorem freeIndicesFrom_ge :
    ∀ (bs : List Block) (i j : Nat), j ∈ freeIndicesFrom bs i → i ≤ j := by
  intro bs
  induction bs with
  | nil => intro i j h; simp [freeIndicesFrom] at h
  | cons b bs ih =>
    intro i j h
    cases b with
    | Free =>
      simp only [freeIndicesFrom, List.mem_cons] at h
      rcases h with h | h
      · omega
      · have := ih (i + 1) j h; omega
    | Requested =>
      simp only [freeIndicesFrom] at h
      have := ih (i + 1) j h; omega
    | Received =>
      simp only [freeIndicesFrom] at h
      have := ih (i + 1) j h; omega

theorem freeIndicesFrom_lt :
    ∀ (bs : List Block) (i j : Nat), j ∈ freeIndicesFrom bs i → j < i + bs.length := by
  intro bs
  induction bs with
  | nil => intro i j h; simp [freeIndicesFrom] at h
  | cons b bs ih =>
    intro i j h
    cases b with
    | Free =>
      simp only [freeIndicesFrom, List.mem_cons] at h
      rcases h with h | h
      · simp [h]
      · have := ih (i + 1) j h; simp only [List.length_cons]; omega
    | Requested =>
      simp only [freeIndicesFrom] at h
      have := ih (i + 1) j h; simp only [List.length_cons]; omega
    | Received =>
      simp only [freeIndicesFrom] at h
      have := ih (i + 1) j h; simp only [List.length_cons]; omega

theorem freeIndicesFrom_sorted :
    ∀ (bs : List Block) (i : Nat), (freeIndicesFrom bs i).Pairwise (· < ·) := by
  intro bs
  induction bs with
  | nil => intro i; simp [freeIndicesFrom]
  | cons b bs ih =>
    intro i
    cases b with
    | Free =>
      simp only [freeIndicesFrom]
      refine List.Pairwise.cons ?_ (ih (i + 1))
      intro j hj
      have := freeIndicesFrom_ge bs (i + 1) j hj
      omega
    | Requested => simpa [freeIndicesFrom] using ih (i + 1)
    | Received => simpa [freeIndicesFrom] using ih (i + 1)

theorem freeIndicesFrom_length :
    ∀ (bs : List Block) (i : Nat),
      (freeIndicesFrom bs i).length = (bs.filter fun b => decide (b = Block.Free)).length := by
  intro bs
  induction bs with
  | nil => intro i; simp [freeIndicesFrom]
  | cons b bs ih =>
    intro i
    cases b with
    | Free => simp [freeIndicesFrom, List.filter, ih (i + 1)]
    | Requested => simp [freeIndicesFrom, List.filter, ih (i + 1)]
    | Received => simp [freeIndicesFrom, List.filter, ih (i + 1)]

theorem pickOffset_eq {i : Nat} (h : i < 262144) : pickOffset i = i * BLOCK_LEN := by
  have h1 : i % 4294967296 = i := Nat.mod_eq_of_lt (by omega)
  have h2 : i * BLOCK_LEN < 4294967296 := by simp only [BLOCK_LEN]; omega
  simp only [pickOffset, h1, Nat.mod_eq_of_lt h2]

theorem pickBlocksGo_fst (index count : Nat) :
    ∀ (bs : List Block) (i picked : Nat), picked ≤ count →
      (pickBlocksGo index count bs i picked).1
        = ((freeIndicesFrom bs i).take (count - picked)).map
            (fun j => BlockInfo.new index (pickOffset j)) := by
  intro bs
  induction bs with
  | nil => intro i picked _; simp [pickBlocksGo, freeIndicesFrom]
  | cons b bs ih =>
    intro i picked hle
    by_cases hpc : picked = count
    · subst hpc; simp [pickBlocksGo, Nat.sub_self]
    · have hsub : count - picked = (count - (picked + 1)) + 1 := by omega
      cases b with
      | Free =>
        simp only [pickBlocksGo, if_neg hpc, freeIndicesFrom, hsub,
          List.take_succ_cons, List.map_cons]
        rw [ih (i + 1) (picked + 1) (by omega)]
      | Requested =>
        simp only [pickBlocksGo, if_neg hpc, freeIndicesFrom]
        exact ih (i + 1) picked hle
      | Received =>
        simp only [pickBlocksGo, if_neg hpc, freeIndicesFrom]
        exact ih (i + 1) picked hle

theorem pickBlocksGo_snd_free (index count : Nat) :
    ∀ (bs : List Block) (i picked : Nat), picked ≤ count →
      freeIndicesFrom (pickBlocksGo index count bs i picked).2 i
        = (freeIndicesFrom bs i).drop (count - picked) := by
  intro bs
  induction bs with
  | nil => intro i picked _; simp [pickBlocksGo, freeIndicesFrom]
  | cons b bs ih =>
    intro i picked hle
    by_cases hpc : picked = count
    · subst hpc; simp [pickBlocksGo, Nat.sub_self]
    · have hsub : count - picked = (count - (picked + 1)) + 1 := by omega
      cases b with
      | Free =>
        simp only [pickBlocksGo, if_neg hpc, freeIndicesFrom, hsub,
          List.drop_succ_cons]
        exact ih (i + 1) (picked + 1) (by omega)
      | Requested =>
        simp only [pickBlocksGo, if_neg hpc, freeIndicesFrom]
        exact ih (i + 1) picked hle
      | Received =>
        simp only [pickBlocksGo, if_neg hpc, freeIndicesFrom]
        exact ih (i + 1) picked hle

theorem pickBlocksGo_snd_length (index count : Nat) :
    ∀ (bs : List Block) (i picked : Nat),
      (pickBlocksGo index count bs i picked).2.length = bs.length := by
  intro bs
  induction bs with
  | nil => intro i picked; simp [pickBlocksGo]
  | cons b bs ih =>
    intro i picked
    by_cases hpc : picked = count
    · subst hpc; simp [pickBlocksGo]
    · cases b with
      | Free => simp only [pickBlocksGo, if_neg hpc, List.length_cons, ih]
      | Requested => simp only [pickBlocksGo, if_neg hpc, List.length_cons, ih]
      | Received => simp only [pickBlocksGo, if_neg hpc, List.length_cons, ih]

theorem pick_blocks_fst (pd : PieceDownload) (count : Nat) :
    (pd.pick_blocks count).1
      = ((freeIndicesFrom pd.blocks 0).take count).map
          (fun j => BlockInfo.new pd.index (pickOffset j)) := by
  simpa using pickBlocksGo_fst pd.index count pd.blocks 0 0 (Nat.zero_le _)

theorem pick_blocks_snd_free (pd : PieceDownload) (count : Nat) :
    freeIndicesFrom (pd.pick_blocks count).2.blocks 0
      = (freeIndicesFrom pd.blocks 0).drop count := by
  simpa using pickBlocksGo_snd_free pd.index count pd.blocks 0 0 (Nat.zero_le _)

theorem pick_blocks_index (pd : PieceDownload) (count : Nat) :
    (pd.pick_blocks count).2.index = pd.index := rfl

theorem pick_blocks_length (pd : PieceDownload) (count : Nat) :
    (pd.pick_blocks count).2.length = pd.length := rfl

theorem pick_blocks_blocks_length (pd : PieceDownload) (count : Nat) :
    (pd.pick_blocks count).2.blocks.length = pd.blocks.length :=
  pickBlocksGo_snd_length pd.index count pd.blocks 0 0

theorem runPicks_snd_index :
    ∀ (cs : List Nat) (pd : PieceDownload), (runPicks pd cs).2.index = pd.index := by
  intro cs
  induction cs with
  | nil => intro pd; rfl
  | cons c cs ih =>
    intro pd
    simp only [runPicks]
    rw [ih]
    rfl

theorem runPicks_snd_length :
    ∀ (cs : List Nat) (pd : PieceDownload), (runPicks pd cs).2.length = pd.length := by
  intro cs
  induction cs with
  | nil => intro pd; rfl
  | cons c cs ih =>
    intro pd
    simp only [runPicks]
    rw [ih]
    rfl

theorem runPicks_snd_blocks_length :
    ∀ (cs : List Nat) (pd : PieceDownload),
      (runPicks pd cs).2.blocks.length = pd.blocks.length := by
  intro cs
  induction cs with
  | nil => intro pd; rfl
  | cons c cs ih =>
    intro pd
    simp only [runPicks]
    rw [ih]
    exact pick_blocks_blocks_length pd c

theorem runPicks_fst_length :
    ∀ (cs : List Nat) (pd : PieceDownload), (runPicks pd cs).1.length = cs.length := by
  intro cs
  induction cs with
  | nil => intro pd; rfl
  | cons c cs ih =>
    intro pd
    simp only [runPicks, List.length_cons]
    rw [ih]

theorem runPicks_join :
    ∀ (cs : List Nat) (pd : PieceDownload), ∃ m : Nat,
      ((runPicks pd cs).1.flatten
          = ((freeIndicesFrom pd.blocks 0).take m).map
              (fun j => BlockInfo.new pd.index (pickOffset j)))
      ∧ freeIndicesFrom (runPicks pd cs).2.blocks 0
          = (freeIndicesFrom pd.blocks 0).drop m := by
  intro cs
  induction cs with
  | nil =>
    intro pd
    exact ⟨0, by simp [runPicks], by simp [runPicks]⟩
  | cons c cs ih =>
    intro pd
    obtain ⟨m, hjoin, hfree⟩ := ih (pd.pick_blocks c).2
    refine ⟨c + m, ?_, ?_⟩
    · simp only [runPicks, List.flatten_cons]
      rw [pick_blocks_fst, hjoin, pick_blocks_snd_free, pick_blocks_index,
        List.take_add, List.map_append]
    · simp only [runPicks]
      rw [hfree, pick_blocks_snd_free, List.drop_drop]

theorem runPicks_get (cs : List Nat) :
    ∀ (pd : PieceDownload) (k c : Nat), cs.get? k = some c →
      (runPicks pd cs).1.get? k
        = some ((runPicks pd (cs.take k)).2.pick_blocks c).1 := by
  induction cs with
  | nil => intro pd k c h; simp at h
  | cons c0 cs ih =>
    intro pd k c h
    cases k with
    | zero =>
      simp only [List.get?] at h
      cases h
      simp [runPicks]
    | succ k =>
      simp only [List.get?] at h
      simp only [runPicks, List.take_succ_cons, List.get?]
      exact ih (pd.pick_blocks c0).2 k c h

theorem new_blocks_length_le (idx len : Nat) :
    (PieceDownload.new idx len).blocks.length ≤ 262143 := by
  simp only [PieceDownload.new, List.length_replicate]
  have h : (len + (BLOCK_LEN - 1)) % 4294967296 < 4294967296 :=
    Nat.mod_lt _ (by omega)
  simp only [BLOCK_LEN] at h ⊢
  omega

/-- C1: for every `PieceDownload` constructed with piece index `idx` and
length `len`, and every sequence of `pick_blocks` calls (any counts), the
`BlockInfo` values returned across all calls are pairwise distinct, each has
`piece_index = idx` and `offset = j * BLOCK_LEN` for some valid block index
`j` of the piece, each call returns exactly the first free blocks (in
ascending block-index order, the i-th free block being chosen i-th), and the
blocks within each call are in strictly ascending block-index order. -/
theorem C1_pick_blocks_distinct_ordered (idx len : Nat) (cs : List Nat) :
    ((runPicks (PieceDownload.new idx len) cs).1.flatten).Nodup
    ∧ (∀ b ∈ (runPicks (PieceDownload.new idx len) cs).1.flatten,
        b.piece_index = idx
        ∧ ∃ j, j < (PieceDownload.new idx len).blocks.length ∧ b.offset = j * BLOCK_LEN)
    ∧ (∀ k c, cs.get? k = some c →
        (runPicks (PieceDownload.new idx len) cs).1.get? k
          = some (((freeIndicesFrom
                ((runPicks (PieceDownload.new idx len) (cs.take k)).2).blocks 0).take c).map
              (fun j => BlockInfo.new idx (j * BLOCK_LEN))))
    ∧ (∀ l ∈ (runPicks (PieceDownload.new idx len) cs).1,
        (l.map BlockInfo.index).Pairwise (· < ·)) := by
  have hlen0 : (PieceDownload.new idx len).blocks.length ≤ 262143 :=
    new_blocks_length_le idx len
  obtain ⟨m, hjoin, -⟩ := runPicks_join cs (PieceDownload.new idx len)
  have hidx0 : (PieceDownload.new idx len).index = idx := rfl
  have hmem_lt : ∀ j ∈ (freeIndicesFrom (PieceDownload.new idx len).blocks 0).take m,
      j < 262144 := by
    intro j hj
    have := freeIndicesFrom_lt (PieceDownload.new idx len).blocks 0 j
      (List.take_subset _ _ hj)
    omega
  refine ⟨?_, ?_, ?_, ?_⟩
  · rw [hjoin]
    refine List.Nodup.map_on ?_ ?_
    · intro x hx y hy hxy
      have hx' := hmem_lt x hx
      have hy' := hmem_lt y hy
      have hoff : pickOffset x = pickOffset y := congrArg BlockInfo.offset hxy
      rw [pickOffset_eq hx', pickOffset_eq hy'] at hoff
      exact Nat.eq_of_mul_eq_mul_right (by simp [BLOCK_LEN]) hoff
    · exact ((freeIndicesFrom_sorted _ 0).sublist (List.take_sublist m _)).nodup
  · intro b hb
    rw [hjoin] at hb
    obtain ⟨j, hj, rfl⟩ := List.mem_map.1 hb
    have hjlt : j < (PieceDownload.new idx len).blocks.length := by
      have := freeIndicesFrom_lt (PieceDownload.new idx len).blocks 0 j
        (List.take_subset _ _ hj)
      omega
    refine ⟨rfl, j, hjlt, ?_⟩
    show pickOffset j = j * BLOCK_LEN
    exact pickOffset_eq (by omega)
  · intro k c hk
    rw [runPicks_get cs (PieceDownload.new idx len) k c hk]
    congr 1
    rw [pick_blocks_fst]
    have hidx : ((runPicks (PieceDownload.new idx len) (cs.take k)).2).index = idx := by
      rw [runPicks_snd_index]
      exact hidx0
    rw [hidx]
    refine List.map_congr_left ?_
    intro j hj
    have hbl : ((runPicks (PieceDownload.new idx len) (cs.take k)).2).blocks.length
        = (PieceDownload.new idx len).blocks.length :=
      runPicks_snd_blocks_length _ _
    have := freeIndicesFrom_lt
      ((runPicks (PieceDownload.new idx len) (cs.take k)).2).blocks 0 j
      (List.take_subset _ _ hj)
    rw [pickOffset_eq (by omega)]
  · intro l hl
    obtain ⟨k, hk⟩ := List.mem_iff_getElem?.1 hl
    have hkcs : k < cs.length := by
      have h1 : k < (runPicks (PieceDownload.new idx len) cs).1.length :=
        (List.getElem?_eq_some_iff.1 hk).1
      rwa [runPicks_fst_length] at h1
    obtain ⟨c, hc⟩ : ∃ c, cs.get? k = some c := by
      rw [List.get?_eq_getElem?]
      exact ⟨cs[k], List.getElem?_eq_some_iff.2 ⟨hkcs, rfl⟩⟩
    have hget := runPicks_get cs (PieceDownload.new idx len) k c hc
    rw [← List.get?_eq_getElem?] at hk
    rw [hk] at hget
    have hl' : l = ((runPicks (PieceDownload.new idx len) (cs.take k)).2.pick_blocks c).1 :=
      Option.some.inj hget
    subst hl'
    rw [pick_blocks_fst, List.map_map]
    have hbl : ((runPicks (PieceDownload.new idx len) (cs.take k)).2).blocks.length
        = (PieceDownload.new idx len).blocks.length :=
      runPicks_snd_blocks_length _ _
    have hcong : ∀ j ∈ (freeIndicesFrom
        ((runPicks (PieceDownload.new idx len) (cs.take k)).2).blocks 0).take c,
        (BlockInfo.index ∘ fun j => BlockInfo.new
          ((runPicks (PieceDownload.new idx len) (cs.take k)).2).index (pickOffset j)) j
          = id j := by
      intro j hj
      have := freeIndicesFrom_lt
        ((runPicks (PieceDownload.new idx len) (cs.take k)).2).blocks 0 j
        (List.take_subset _ _ hj)
      have hj2 : j < 262144 := by omega
      show (pickOffset j) / BLOCK_LEN = j
      rw [pickOffset_eq hj2]
      exact Nat.mul_div_cancel j (by simp [BLOCK_LEN])
    rw [List.map_congr_left hcong, List.map_id]
    exact (freeIndicesFrom_sorted _ 0).sublist (List.take_sublist c _)

/-- Witness for C1: piece index 7, a three-block piece, calls of 2 then 5. -/
theorem C1_pick_blocks_distinct_ordered_witness :
    ((runPicks (PieceDownload.new 7 49152) [2, 5]).1.flatten).Nodup
    ∧ (runPicks (PieceDownload.new 7 49152) [2, 5]).1.get? 0
        = some [BlockInfo.new 7 0, BlockInfo.new 7 16384] := by
  have h := C1_pick_blocks_distinct_ordered 7 49152 [2, 5]
  refine ⟨h.1, ?_⟩
  rw [h.2.2.1 0 2 rfl]
  rfl

/-- C9: a `pick_blocks` call with `count = 0` returns the empty list and
leaves the whole state (blocks, index, length) unchanged. -/
theorem C9_pick_zero_noop (pd : PieceDownload) : pd.pick_blocks 0 = ([], pd) := by
  cases pd with
  | mk index length blocks =>
    cases blocks with
    | nil => simp [PieceDownload.pick_blocks, pickBlocksGo]
    | cons b bs => simp [PieceDownload.pick_blocks, pickBlocksGo]


theorem filter_free_set_received :
    ∀ (l : List Block) (i : Nat), l.get? i = some Block.Requested →
      ((l.set i Block.Received).filter fun b => decide (b = Block.Free)).length
        = (l.filter fun b => decide (b = Block.Free)).length := by
  intro l
  induction l with
  | nil => intro i h; simp at h
  | cons b bs ih =>
    intro i h
    cases i with
    | zero =>
      simp only [List.get?] at h
      cases h
      rw [List.set_cons_zero, List.filter_cons, List.filter_cons]
      simp
    | succ i =>
      simp only [List.get?] at h
      have hrec := ih i h
      rw [List.set_cons_succ, List.filter_cons, List.filter_cons]
      cases hb : decide (b = Block.Free) with
      | true => simp [hb, hrec]
      | false => simp [hb, hrec]

/-- C2 (amended): immediately after construction `free_block_count` equals
`ceil(len / BLOCK_LEN)` whenever `len ≥ 1` and the u32 computation
`len + (BLOCK_LEN - 1)` does not overflow; every `pick_blocks` call decreases
it by exactly the length of the list that call returned; and `received_block`
on a block whose current state is `Requested` leaves it unchanged. -/
theorem C2_free_block_count_behaviour :
    (∀ (idx len : Nat), 1 ≤ len → len + (BLOCK_LEN - 1) < 4294967296 →
      (PieceDownload.new idx len).free_block_count = (len + (BLOCK_LEN - 1)) / BLOCK_LEN)
    ∧ (∀ (pd : PieceDownload) (count : Nat), pd.free_block_count
        = ((pd.pick_blocks count).2).free_block_count + ((pd.pick_blocks count).1).length)
    ∧ (∀ (pd : PieceDownload) (b : BlockInfo) (pd' : PieceDownload),
        pd.blocks.get? (BlockInfo.index b) = some Block.Requested →
        pd.received_block b = some pd' →
        pd'.free_block_count = pd.free_block_count) := by
  refine ⟨?_, ?_, ?_⟩
  · intro idx len _ h2
    simp only [PieceDownload.free_block_count, PieceDownload.new]
    rw [Nat.mod_eq_of_lt h2]
    simp
  · intro pd count
    have h1 := freeIndicesFrom_length pd.blocks 0
    have h2 := freeIndicesFrom_length ((pd.pick_blocks count).2).blocks 0
    have h3 := pick_blocks_snd_free pd count
    have h4 := pick_blocks_fst pd count
    simp only [PieceDownload.free_block_count]
    rw [← h1, ← h2, h3, h4, List.length_map, List.length_take, List.length_drop]
    omega
  · intro pd b pd' hreq hrec
    simp only [PieceDownload.received_block] at hrec
    by_cases h : BlockInfo.index b < pd.blocks.length
    · rw [if_pos h] at hrec
      cases hrec
      simp only [PieceDownload.free_block_count]
      exact filter_free_set_received pd.blocks _ hreq
    · rw [if_neg h] at hrec
      cases hrec

/-- Witness for C2: a two-block piece (length BLOCK_LEN + 1), one pick of 1,
and a receive on a Requested block. -/
theorem C2_free_block_count_behaviour_witness :
    (PieceDownload.new 0 16385).free_block_count = (16385 + (BLOCK_LEN - 1)) / BLOCK_LEN
    ∧ ((PieceDownload.mk 0 16385 [Block.Requested, Block.Free]).free_block_count
        = (((PieceDownload.mk 0 16385 [Block.Requested, Block.Free]).pick_blocks 1).2).free_block_count
          + (((PieceDownload.mk 0 16385 [Block.Requested, Block.Free]).pick_blocks 1).1).length)
    ∧ ((PieceDownload.mk 0 16385 [Block.Requested, Block.Free]).received_block
          (BlockInfo.new 0 0)).map PieceDownload.free_block_count
        = some (PieceDownload.mk 0 16385 [Block.Requested, Block.Free]).free_block_count := by
  refine ⟨C2_free_block_count_behaviour.1 0 16385 (by decide) (by decide),
    C2_free_block_count_behaviour.2.1 _ 1, ?_⟩
  have h := C2_free_block_count_behaviour.2.2
    (PieceDownload.mk 0 16385 [Block.Requested, Block.Free]) (BlockInfo.new 0 0)
    (PieceDownload.mk 0 16385 [Block.Received, Block.Free]) (by decide) (by decide)
  rw [show (PieceDownload.mk 0 16385 [Block.Requested, Block.Free]).received_block
        (BlockInfo.new 0 0)
      = some (PieceDownload.mk 0 16385 [Block.Received, Block.Free]) by decide]
  rw [Option.map_some']
  rw [h]

/-- Counterexample to C2 as stated: at the u32-maximal piece length
`len = 4294967295` the computation `len + (BLOCK_LEN - 1)` wraps modulo 2^32,
so the fresh `PieceDownload` has 0 free blocks while
`ceil(len / BLOCK_LEN) = 262144`. -/
theorem C2_free_block_count_counterexample :
    (PieceDownload.new 0 4294967295).free_block_count
      ≠ (4294967295 + (BLOCK_LEN - 1)) / BLOCK_LEN := by
  decide

/-- Modelled from the spec: the implied length of block `j` of a piece of
`pieceLen` bytes — `BLOCK_LEN` for every block except possibly the last,
whose length is `pieceLen - offset`. -/
def blockLenAt (pieceLen j : Nat) : Nat := min BLOCK_LEN (pieceLen - j * BLOCK_LEN)

/-- C3 (amended): whenever the u32 computation `len + (BLOCK_LEN - 1)` does
not overflow, `PieceDownload::new` allocates `ceil(len / BLOCK_LEN)` blocks,
all Free; a piece of length `k * BLOCK_LEN` (with `k ≥ 1`) has exactly `k`
blocks of length `BLOCK_LEN` each; a piece of length `k * BLOCK_LEN + r` with
`0 < r < BLOCK_LEN` has `k + 1` blocks, the last of length `r`; no operation
changes the sequence length; and in general the count is computed as
`(length + (BLOCK_LEN - 1)) / BLOCK_LEN` in u32 (wrapping) arithmetic. -/
theorem C3_new_block_allocation :
    (∀ (idx len : Nat), 1 ≤ len → len + (BLOCK_LEN - 1) < 4294967296 →
      (PieceDownload.new idx len).blocks
        = List.replicate ((len + (BLOCK_LEN - 1)) / BLOCK_LEN) Block.Free)
    ∧ (∀ (idx k : Nat), 1 ≤ k → k * BLOCK_LEN < 4294967296 →
      (PieceDownload.new idx (k * BLOCK_LEN)).blocks.length = k
      ∧ ∀ j < k, blockLenAt (k * BLOCK_LEN) j = BLOCK_LEN)
    ∧ (∀ (idx k r : Nat), 0 < r → r < BLOCK_LEN →
        k * BLOCK_LEN + r + (BLOCK_LEN - 1) < 4294967296 →
      (PieceDownload.new idx (k * BLOCK_LEN + r)).blocks.length = k + 1
      ∧ blockLenAt (k * BLOCK_LEN + r) k = r
      ∧ ∀ j < k, blockLenAt (k * BLOCK_LEN + r) j = BLOCK_LEN)
    ∧ (∀ (pd : PieceDownload) (count : Nat),
        ((pd.pick_blocks count).2).blocks.length = pd.blocks.length)
    ∧ (∀ (pd : PieceDownload) (b : BlockInfo) (pd' : PieceDownload),
        pd.received_block b = some pd' → pd'.blocks.length = pd.blocks.length)
    ∧ (∀ (idx len : Nat), (PieceDownload.new idx len).blocks.length
        = ((len + (BLOCK_LEN - 1)) % 4294967296) / BLOCK_LEN) := by
  refine ⟨?_, ?_, ?_, ?_, ?_, ?_⟩
  · intro idx len _ h2
    simp only [PieceDownload.new]
    rw [Nat.mod_eq_of_lt h2]
  · intro idx k hk hlt
    constructor
    · simp only [PieceDownload.new, List.length_replicate, BLOCK_LEN] at *
      rw [Nat.mod_eq_of_lt (by omega)]
      omega
    · intro j hj
      simp only [blockLenAt, BLOCK_LEN] at *
      omega
  · intro idx k r hr1 hr2 hlt
    refine ⟨?_, ?_, ?_⟩
    · simp only [PieceDownload.new, List.length_replicate, BLOCK_LEN] at *
      rw [Nat.mod_eq_of_lt (by omega)]
      omega
    · simp only [blockLenAt, BLOCK_LEN] at *
      omega
    · intro j hj
      simp only [blockLenAt, BLOCK_LEN] at *
      omega
  · exact fun pd count => pick_blocks_blocks_length pd count
  · intro pd b pd' hrec
    simp only [PieceDownload.received_block] at hrec
    by_cases h : BlockInfo.index b < pd.blocks.length
    · rw [if_pos h] at hrec
      cases hrec
      simp
    · rw [if_neg h] at hrec
      cases hrec
  · intro idx len
    simp [PieceDownload.new]

/-- Witness for C3: a piece of two full blocks and a piece of one full block
plus one byte. -/
theorem C3_new_block_allocation_witness :
    (PieceDownload.new 3 32768).blocks = List.replicate 2 Block.Free
    ∧ (PieceDownload.new 3 32768).blocks.length = 2
    ∧ (PieceDownload.new 3 16385).blocks.length = 2
    ∧ blockLenAt 16385 1 = 1
    ∧ blockLenAt 16385 0 = BLOCK_LEN := by
  have h1 := C3_new_block_allocation.1 3 32768 (by decide) (by decide)
  have h2 := C3_new_block_allocation.2.1 3 2 (by decide) (by decide)
  have h3 := C3_new_block_allocation.2.2.1 3 1 1 (by decide) (by decide) (by decide)
  refine ⟨?_, ?_, ?_, h3.2.1, h3.2.2 0 (by decide)⟩
  · rw [h1]
    rfl
  · rw [show (2 : Nat) * BLOCK_LEN = 32768 from rfl] at h2
    exact h2.1
  · rw [show (1 : Nat) * BLOCK_LEN + 1 = 16385 from rfl] at h3
    exact h3.1

/-- Counterexample to C3 as stated: the u32-maximal length
`4294967295 = 262143 * BLOCK_LEN + 16383` should by the claim produce
`262143 + 1` blocks, but the u32 computation of the count wraps and the
constructor allocates 0 blocks. -/
theorem C3_new_block_allocation_counterexample :
    4294967295 = 262143 * BLOCK_LEN + 16383
    ∧ (PieceDownload.new 0 4294967295).blocks.length ≠ 262143 + 1 := by
  refine ⟨by decide, by decide⟩

/-- C10 (amended): whenever the u32 computation `len + (BLOCK_LEN - 1)` does
not overflow, every `BlockInfo` with `piece_index = idx` and `offset < len`
has block index `offset / BLOCK_LEN` strictly below the block-sequence length
of `PieceDownload::new(idx, len)`, so the unguarded vector indexing of
`received_block` is in bounds; and on any state with that sequence length
whose addressed block is `Requested`, `received_block` succeeds (no panic)
and sets exactly that block to `Received`. -/
theorem C10_received_block_in_bounds (idx len : Nat) (b : BlockInfo)
    (hov : len + (BLOCK_LEN - 1) < 4294967296)
    (_hpi : b.piece_index = idx) (hoff : b.offset < len) :
    BlockInfo.index b < (PieceDownload.new idx len).blocks.length
    ∧ (∀ pd : PieceDownload,
        pd.blocks.length = (PieceDownload.new idx len).blocks.length →
        pd.blocks.get? (BlockInfo.index b) = some Block.Requested →
        ∃ pd', pd.received_block b = some pd'
          ∧ pd'.index = pd.index ∧ pd'.length = pd.length
          ∧ pd'.blocks.get? (BlockInfo.index b) = some Block.Received
          ∧ ∀ j, j ≠ BlockInfo.index b → pd'.blocks.get? j = pd.blocks.get? j) := by
  have hidx : BlockInfo.index b < (PieceDownload.new idx len).blocks.length := by
    simp only [BlockInfo.index, PieceDownload.new, List.length_replicate]
    rw [Nat.mod_eq_of_lt hov]
    simp only [BLOCK_LEN] at *
    omega
  refine ⟨hidx, ?_⟩
  intro pd hlen hreq
  have hin : BlockInfo.index b < pd.blocks.length := by omega
  refine ⟨{ pd with blocks := pd.blocks.set (BlockInfo.index b) Block.Received },
    ?_, rfl, rfl, ?_, ?_⟩
  · simp only [PieceDownload.received_block, if_pos hin]
  · simp only [List.get?_eq_getElem?]
    exact List.getElem?_set_self hin
  · intro j hj
    simp only [List.get?_eq_getElem?]
    exact List.getElem?_set_ne (fun h => hj h.symm)

/-- Witness for C10: a one-block piece and a state whose single block is
Requested. -/
theorem C10_received_block_in_bounds_witness :
    BlockInfo.index (BlockInfo.new 0 5) < (PieceDownload.new 0 16384).blocks.length
    ∧ (PieceDownload.mk 0 16384 [Block.Requested]).received_block (BlockInfo.new 0 5)
        = some (PieceDownload.mk 0 16384 [Block.Received]) := by
  have h := C10_received_block_in_bounds 0 16384 (BlockInfo.new 0 5)
    (by decide) (by decide) (by decide)
  refine ⟨h.1, ?_⟩
  obtain ⟨pd', hrec, -, -, hset, -⟩ :=
    h.2 (PieceDownload.mk 0 16384 [Block.Requested]) (by decide) (by decide)
  rw [hrec]
  congr 1
  have hpd' : pd' = PieceDownload.mk 0 16384 [Block.Received] := by
    have := hrec
    rw [show (PieceDownload.mk 0 16384 [Block.Requested]).received_block (BlockInfo.new 0 5)
        = some (PieceDownload.mk 0 16384 [Block.Received]) by decide] at this
    exact (Option.some.inj this).symm
  exact hpd'

/-- Counterexample to C10 as stated: for the u32-maximal piece length the
block-count computation wraps to 0, so the `BlockInfo` with offset 0 (which
satisfies `offset < len`) addresses a block outside the empty sequence and
`received_block` panics (modelled as `none`). -/
theorem C10_received_block_counterexample :
    (0 : Nat) < 4294967295
    ∧ ¬ BlockInfo.index (BlockInfo.new 0 0) < (PieceDownload.new 0 4294967295).blocks.length
    ∧ (PieceDownload.new 0 4294967295).received_block (BlockInfo.new 0 0) = none := by
  refine ⟨by decide, by decide, by decide⟩

/-- A big-endian u32 from four bytes (`u32::from_be_bytes` / `Buf::get_u32`). -/
def u32_of_be (a b c d : Nat) : Nat := ((a * 256 + b) * 256 + c) * 256 + d

/-- A big-endian u16 from two bytes (`u16::from_be_bytes` / `Buf::get_u16`). -/
def u16_of_be (a b : Nat) : Nat := a * 256 + b

/-- The four big-endian bytes of a u32 value. -/
def u32_be_bytes (n : Nat) : List Nat :=
  [n / 16777216 % 256, n / 65536 % 256, n / 256 % 256, n % 256]

/-- The two big-endian bytes of a u16 value. -/
def u16_be_bytes (n : Nat) : List Nat := [n / 256 % 256, n % 256]

/-- An IP address (`std::net::IpAddr`); a V4 address is identified with its
u32 value (the big-endian interpretation of its four octets). -/
inductive IpAddr where
  | V4 : Nat → IpAddr
  | V6 : Nat → IpAddr
deriving DecidableEq

/-- A socket address (`std::net::SocketAddr`): an IP address and a port. -/
structure SocketAddr where
  ip : IpAddr
  port : Nat
deriving DecidableEq

/-- `metainfo::BencodeError`, reduced to the one constructor `tracker.rs`
uses. -/
inductive BencodeError where
  | InvalidValue : String → BencodeError
deriving DecidableEq

/-- `TrackerError`, reduced to the variant relevant to the peer parser. -/
inductive TrackerError where
  | Bencode : BencodeError → TrackerError
deriving DecidableEq

/-- The record loop of `deserialize_peers::Visitor::visit_bytes`: consume the
buffer six bytes at a time, each record being a big-endian u32 IPv4 address
followed by a big-endian u16 port. -/
def parseCompactPeers : List Nat → List SocketAddr
  | a :: b :: c :: d :: e :: f :: rest =>
    SocketAddr.mk (IpAddr.V4 (u32_of_be a b c d)) (u16_of_be e f)
      :: parseCompactPeers rest
  | _ => []

/-- `deserialize_peers::Visitor::visit_bytes`: reject a buffer whose length
is not a multiple of 6 with a Bencode `InvalidValue` error, otherwise parse
6-byte records. -/
def visit_bytes (buf : List Nat) : Except TrackerError (List SocketAddr) :=
  if buf.length % 6 ≠ 0 then
    Except.error (TrackerError.Bencode (BencodeError.InvalidValue
      "peers compact string must be a multiple of 6"))
  else
    Except.ok (parseCompactPeers buf)

/-- The 6-byte-record encoding of a list of `(IPv4, port)` pairs, as in the
claim (and as built by `encode_compact_peers_list` in the source's tests):
four big-endian address bytes then two big-endian port bytes per peer. -/
def encode_compact_peers_list (peers : List (Nat × Nat)) : List Nat :=
  (peers.map fun p => u32_be_bytes p.1 ++ u16_be_bytes p.2).flatten

theorem encode_compact_length (peers : List (Nat × Nat)) :
    (encode_compact_peers_list peers).length = 6 * peers.length := by
  induction peers with
  | nil => rfl
  | cons p ps ih =>
    simp only [encode_compact_peers_list, List.map_cons, List.flatten_cons,
      List.length_append] at ih ⊢
    rw [ih]
    simp only [u32_be_bytes, u16_be_bytes, List.length_cons, List.length_nil,
      List.length_append]
    omega

theorem parseCompactPeers_encode (peers : List (Nat × Nat))
    (h : ∀ p ∈ peers, p.1 < 4294967296 ∧ p.2 < 65536) :
    parseCompactPeers (encode_compact_peers_list peers)
      = peers.map fun p => SocketAddr.mk (IpAddr.V4 p.1) p.2 := by
  induction peers with
  | nil => rfl
  | cons p ps ih =>
    obtain ⟨h1, h2⟩ := h p (List.mem_cons_self p ps)
    have hrest := ih fun q hq => h q (List.mem_cons_of_mem p hq)
    simp only [encode_compact_peers_list, List.map_cons, List.flatten_cons]
      at hrest ⊢
    simp only [u32_be_bytes, u16_be_bytes, List.cons_append, List.nil_append,
      parseCompactPeers] at hrest ⊢
    have hip : u32_of_be (p.1 / 16777216 % 256) (p.1 / 65536 % 256)
        (p.1 / 256 % 256) (p.1 % 256) = p.1 := by
      simp only [u32_of_be]; omega
    have hport : u16_of_be (p.2 / 256 % 256) (p.2 % 256) = p.2 := by
      simp only [u16_of_be]; omega
    rw [hip, hport]
    rw [show ∀ l : List Nat, [].append l = l from fun l => rfl]
    rw [hrest]

/-- C4: encoding any list of `(IPv4, port)` pairs as 6-byte big-endian
records and decoding with the compact peers parser yields exactly the
original socket addresses in order, and decoding any byte string whose
length is not a multiple of 6 fails with a Bencode decode error. -/
theorem C4_compact_peers_roundtrip :
    (∀ peers : List (Nat × Nat), (∀ p ∈ peers, p.1 < 4294967296 ∧ p.2 < 65536) →
      visit_bytes (encode_compact_peers_list peers)
        = Except.ok (peers.map fun p => SocketAddr.mk (IpAddr.V4 p.1) p.2))
    ∧ (∀ buf : List Nat, buf.length % 6 ≠ 0 →
      visit_bytes buf = Except.error (TrackerError.Bencode (BencodeError.InvalidValue
        "peers compact string must be a multiple of 6"))) := by
  constructor
  · intro peers h
    have hlen : (encode_compact_peers_list peers).length % 6 = 0 := by
      rw [encode_compact_length]; omega
    simp only [visit_bytes, hlen]
    simp only [ne_eq, not_true_eq_false, if_false, ite_false, reduceIte]
    rw [parseCompactPeers_encode peers h]
  · intro buf h
    simp only [visit_bytes, if_pos h]

/-- Witness for C4: one peer `192.168.0.10:49123` round-trips, and a 5-byte
buffer is rejected. -/
theorem C4_compact_peers_roundtrip_witness :
    visit_bytes (encode_compact_peers_list [(3232235530, 49123)])
      = Except.ok [SocketAddr.mk (IpAddr.V4 3232235530) 49123]
    ∧ visit_bytes [192, 168, 0, 10, 191]
      = Except.error (TrackerError.Bencode (BencodeError.InvalidValue
          "peers compact string must be a multiple of 6")) := by
  constructor
  · exact C4_compact_peers_roundtrip.1 [(3232235530, 49123)] (by decide)
  · exact C4_compact_peers_roundtrip.2 [192, 168, 0, 10, 191] (by decide)

/-- The peer-record loop of `Tracker::announce_udp`
(`while index <= response_buf.len() - 6`), modelled on the buffer suffix that
starts at the running index: while at least 6 bytes remain, read 4 IP bytes
and 2 port bytes; if the IP bytes are not all zero AND the port bytes are not
all zero, push the IPv4 socket address and advance 6 bytes, otherwise break.
(The source renders the address through `format!` and re-parses the string
into a `SocketAddr`; that string round trip is the identity and is modelled
directly.) -/
def announcePeersLoop : List Nat → List SocketAddr
  | a :: b :: c :: d :: e :: f :: rest =>
    if [a, b, c, d] ≠ [0, 0, 0, 0] ∧ [e, f] ≠ [0, 0] then
      SocketAddr.mk (IpAddr.V4 (u32_of_be a b c d)) (u16_of_be e f)
        :: announcePeersLoop rest
    else []
  | _ => []

/-- The peer records of the announce reply: the 6-byte chunks (4 IP bytes,
2 port bytes) of the buffer suffix starting at offset 20, as long as 6 bytes
remain. -/
def peerRecords : List Nat → List (List Nat × List Nat)
  | a :: b :: c :: d :: e :: f :: rest => ([a, b, c, d], [e, f]) :: peerRecords rest
  | _ => []

/-- The socket address a 6-byte peer record denotes. -/
def recordToSocketAddr : List Nat × List Nat → SocketAddr
  | ([a, b, c, d], [e, f]) =>
    SocketAddr.mk (IpAddr.V4 (u32_of_be a b c d)) (u16_of_be e f)
  | _ => SocketAddr.mk (IpAddr.V4 0) 0

/-- The peer-record scan exactly as claim C5 words it: include every record,
stopping only at the first record whose IP bytes AND port bytes are all zero
(or when fewer than 6 bytes remain). -/
def specAnnouncePeersLoop : List Nat → List SocketAddr
  | a :: b :: c :: d :: e :: f :: rest =>
    if [a, b, c, d] = [0, 0, 0, 0] ∧ [e, f] = [0, 0] then []
    else
      SocketAddr.mk (IpAddr.V4 (u32_of_be a b c d)) (u16_of_be e f)
        :: specAnnouncePeersLoop rest
  | _ => []

/-- C5 (amended): the peers parsed from a UDP announce reply buffer are the
6-byte records from offset 20 onwards, taken while the record has a nonzero
IP AND a nonzero port — i.e. the scan stops at the first record whose IP is
all-zero OR whose port is all-zero (not only when both are), or when fewer
than 6 bytes remain — each included record contributing its IPv4 socket
address in order. -/
theorem C5_announce_peer_parsing (buf : List Nat) :
    announcePeersLoop (buf.drop 20)
      = ((peerRecords (buf.drop 20)).takeWhile
          (fun r => decide (r.1 ≠ [0, 0, 0, 0]) && decide (r.2 ≠ [0, 0]))).map
          recordToSocketAddr := by
  suffices h : ∀ (n : Nat) (bytes : List Nat), bytes.length ≤ n →
      announcePeersLoop bytes
        = ((peerRecords bytes).takeWhile
            (fun r => decide (r.1 ≠ [0, 0, 0, 0]) && decide (r.2 ≠ [0, 0]))).map
            recordToSocketAddr by
    exact h (buf.drop 20).length (buf.drop 20) (Nat.le_refl _)
  intro n
  induction n with
  | zero =>
    intro bytes h
    have : bytes = [] := List.eq_nil_of_length_eq_zero (Nat.le_zero.1 h)
    subst this
    rfl
  | succ n ih =>
    intro bytes h
    match bytes with
    | [] => rfl
    | [a] => rfl
    | [a, b] => rfl
    | [a, b, c] => rfl
    | [a, b, c, d] => rfl
    | [a, b, c, d, e] => rfl
    | a :: b :: c :: d :: e :: f :: rest =>
      have hrest : rest.length ≤ n := by
        simp only [List.length_cons] at h
        omega
      by_cases hc : [a, b, c, d] ≠ [0, 0, 0, 0] ∧ [e, f] ≠ [0, 0]
      · simp only [announcePeersLoop, if_pos hc, peerRecords, List.takeWhile_cons]
        rw [ih rest hrest]
        have hb : (decide ([a, b, c, d] ≠ [0, 0, 0, 0])
            && decide ([e, f] ≠ [0, 0])) = true := by
          simp [hc.1, hc.2]
        rw [hb]
        rfl
      · simp only [announcePeersLoop, if_neg hc, peerRecords, List.takeWhile_cons]
        have hb : (decide ([a, b, c, d] ≠ [0, 0, 0, 0])
            && decide ([e, f] ≠ [0, 0])) = false := by
          rcases Decidable.not_and_iff_or_not.1 hc with h1 | h1 <;> simp [h1]
        rw [hb]
        rfl

/-- Counterexample to C5 as stated: in a 2048-byte announce reply whose
record at offset 20 has IP 1.2.3.4 and port 0 (followed by zeros), the code
breaks at that record and returns no peers, while the claim stops only at a
record whose IP and port are BOTH zero and so would include this peer. -/
theorem C5_announce_peer_parsing_counterexample :
    announcePeersLoop
        ((List.replicate 20 0 ++ [1, 2, 3, 4, 0, 0] ++ List.replicate 2022 0).drop 20)
      = []
    ∧ specAnnouncePeersLoop
        ((List.replicate 20 0 ++ [1, 2, 3, 4, 0, 0] ++ List.replicate 2022 0).drop 20)
      = [SocketAddr.mk (IpAddr.V4 16909060) 0]
    ∧ announcePeersLoop
        ((List.replicate 20 0 ++ [1, 2, 3, 4, 0, 0] ++ List.replicate 2022 0).drop 20)
      ≠ specAnnouncePeersLoop
        ((List.replicate 20 0 ++ [1, 2, 3, 4, 0, 0] ++ List.replicate 2022 0).drop 20) := by
  refine ⟨?_, ?_, ?_⟩
  · rfl
  · rfl
  · intro hcontra
    have h1 : announcePeersLoop
        ((List.replicate 20 0 ++ [1, 2, 3, 4, 0, 0] ++ List.replicate 2022 0).drop 20)
        = [] := rfl
    have h2 : specAnnouncePeersLoop
        ((List.replicate 20 0 ++ [1, 2, 3, 4, 0, 0] ++ List.replicate 2022 0).drop 20)
        = [SocketAddr.mk (IpAddr.V4 16909060) 0] := rfl
    rw [h1, h2] at hcontra
    cases hcontra

/-- The retry loop of `Tracker::connect_udp`: while the 16-byte response
buffer is still all zero and fewer than 5 attempts have been made, perform a
receive with a 3-second deadline.  A timeout leaves the buffer untouched and
records `could_connect = false`; a received datagram overwrites the buffer
and records `could_connect = true`.  The per-attempt outcomes are an explicit
input list (the caller passes at least 5 outcomes to reflect that the socket
can always be polled again); the real-time deadline itself is abstracted into
the timeout outcome. -/
def connectLoop : List Nat → Bool → Nat → List (Option (List Nat)) → List Nat × Bool
  | buf, could_connect, _, [] => (buf, could_connect)
  | buf, could_connect, attempts, r :: rs =>
    if buf = List.replicate 16 0 ∧ attempts < 5 then
      match r with
      | some d => connectLoop d true (attempts + 1) rs
      | none => connectLoop buf false (attempts + 1) rs
    else (buf, could_connect)

/-- The u32 read big-endian from bytes 4..8 of a reply buffer (the received
transaction id; i32 equality coincides with bit-pattern equality). -/
def transactionIdRecv (buf : List Nat) : Nat :=
  u32_of_be (buf.getD 4 0) (buf.getD 5 0) (buf.getD 6 0) (buf.getD 7 0)

/-- `Tracker::connect_udp` after the send: run the retry loop on a zeroed
16-byte buffer, read the received transaction id from bytes 4..8 and the
connection id from bytes 8..16 (as a 64-bit big-endian pattern), and return
the connection id only when a datagram was received and the transaction ids
match; otherwise `None`. -/
def connect_udp (transaction_id : Nat) (replies : List (Option (List Nat))) :
    Option Nat :=
  let r := connectLoop (List.replicate 16 0) false 0 replies
  if r.2 = true ∧ transaction_id = transactionIdRecv r.1 then
    some (u32_of_be (r.1.getD 8 0) (r.1.getD 9 0) (r.1.getD 10 0) (r.1.getD 11 0)
        * 4294967296
      + u32_of_be (r.1.getD 12 0) (r.1.getD 13 0) (r.1.getD 14 0) (r.1.getD 15 0))
  else
    none

/-- The signed value of a u32 bit pattern (for the `i32::to_string` that
fills `tracker_id`). -/
def i32_val (n : Nat) : Int :=
  if n < 2147483648 then (n : Int) else (n : Int) - 4294967296

/-- `tracker.rs`, `struct Response` (durations as whole seconds, counts as
bit patterns already converted to usize). -/
structure Response where
  tracker_id : Option String
  failure_reason : Option String
  warning_message : Option String
  interval : Option Nat
  min_interval : Option Nat
  seeder_count : Option Nat
  leecher_count : Option Nat
  peers : List SocketAddr
deriving DecidableEq

/-- `Tracker::announce_udp` after the connect step, as a function of the
connect result, the announce transaction id that was sent, and the receive
outcome (`none` = the read timed out, `some buf` = the post-receive 2048-byte
buffer).  `connect_udp(...).unwrap()` panics on `None` (modelled `none`); a
timeout sets the failure reason and leaves the buffer zeroed; the reply
fields are read big-endian at fixed offsets; the peer loop starts at offset
20; the transaction-id comparison runs afterwards and overwrites any timeout
failure reason; the leecher and seeder counts go through an
`i32 -> usize` `try_into().unwrap()` that panics when the i32 is negative
(bit pattern at least 2^31); `interval` is the hard-coded 9 seconds.  The
failure strings contain an apostrophe, written below with an escape. -/
def announce_udp (connect_result : Option Nat) (transaction_id : Nat)
    (recv : Option (List Nat)) : Option Response :=
  match connect_result with
  | none => none
  | some _ =>
    let failure_reason0 : Option String :=
      match recv with
      | some _ => none
      | none => some "Couldn\x27t announce to tracker"
    let response_buf : List Nat :=
      match recv with
      | some b => b
      | none => List.replicate 2048 0
    let transaction_id_recv := transactionIdRecv response_buf
    let leechers := u32_of_be (response_buf.getD 12 0) (response_buf.getD 13 0)
        (response_buf.getD 14 0) (response_buf.getD 15 0)
    let seeders := u32_of_be (response_buf.getD 16 0) (response_buf.getD 17 0)
        (response_buf.getD 18 0) (response_buf.getD 19 0)
    let peer_vec := announcePeersLoop (response_buf.drop 20)
    let failure_reason :=
      if transaction_id ≠ transaction_id_recv then
        some "Transaction ID\x27s did not match"
      else failure_reason0
    if leechers < 2147483648 ∧ seeders < 2147483648 then
      some { tracker_id := some (toString (i32_val transaction_id_recv)),
             failure_reason := failure_reason,
             warning_message := none,
             interval := some 9,
             min_interval := none,
             seeder_count := some seeders,
             leecher_count := some leechers,
             peers := peer_vec }
    else
      none

theorem connectLoop_all_none :
    ∀ (replies : List (Option (List Nat))) (buf : List Nat) (attempts : Nat),
      (∀ r ∈ replies, r = none) →
      (connectLoop buf false attempts replies).2 = false := by
  intro replies
  induction replies with
  | nil => intro buf attempts _; rfl
  | cons r rs ih =>
    intro buf attempts hall
    have hr : r = none := hall r (List.mem_cons_self r rs)
    subst hr
    by_cases hc : buf = List.replicate 16 0 ∧ attempts < 5
    · simp only [connectLoop, if_pos hc]
      exact ih buf (attempts + 1) fun q hq => hall q (List.mem_cons_of_mem _ hq)
    · simp only [connectLoop, if_neg hc]

/-- C6: if all 5 receive attempts of the UDP connect step elapse without any
datagram received, or if the reply transaction id differs from the one sent,
the connect step returns None; and whenever the connect step returned None
the enclosing announce (which calls `.unwrap()` on it) panics instead of
returning a normal Response. -/
theorem C6_connect_failure :
    (∀ (transaction_id : Nat) (replies : List (Option (List Nat))),
      replies.length = 5 → (∀ r ∈ replies, r = none) →
      connect_udp transaction_id replies = none)
    ∧ (∀ (transaction_id : Nat) (replies : List (Option (List Nat))),
      transactionIdRecv (connectLoop (List.replicate 16 0) false 0 replies).1
          ≠ transaction_id →
      connect_udp transaction_id replies = none)
    ∧ (∀ (transaction_id : Nat) (recv : Option (List Nat)),
      announce_udp none transaction_id recv = none) := by
  refine ⟨?_, ?_, ?_⟩
  · intro transaction_id replies _ hall
    have h := connectLoop_all_none replies (List.replicate 16 0) 0 hall
    simp only [connect_udp]
    rw [if_neg]
    intro hcontra
    rw [h] at hcontra
    exact Bool.false_ne_true hcontra.1
  · intro transaction_id replies hne
    simp only [connect_udp]
    rw [if_neg]
    intro hcontra
    exact hne hcontra.2.symm
  · intro transaction_id recv
    rfl

/-- Witness for C6: five timeouts; a reply with transaction id 9 when 1 was
sent; and the panic of the enclosing announce on a None connect result. -/
theorem C6_connect_failure_witness :
    connect_udp 1 (List.replicate 5 none) = none
    ∧ connect_udp 1 [some [0, 0, 0, 0, 0, 0, 0, 9, 0, 0, 0, 0, 0, 0, 0, 7]] = none
    ∧ announce_udp none 1 none = none := by
  refine ⟨C6_connect_failure.1 1 (List.replicate 5 none) (by decide) ?_,
    C6_connect_failure.2.1 1 _ (by decide),
    C6_connect_failure.2.2 1 none⟩
  intro r hr
  exact List.eq_of_mem_replicate hr

/-- C7 (amended): with a successful connect, (a) a received reply whose
transaction id differs from the sent one (and whose leecher and seeder counts
are non-negative i32s) yields Ok(Response) with the mismatch failure string;
(b) a timeout with a nonzero sent transaction id also yields the mismatch
string, because the id read from the zeroed buffer is 0 and the mismatch
check runs after — and overwrites — the timeout reason; (c) only a timeout
with sent transaction id 0 yields the tracker-did-not-respond string.  In all
three cases announce returns Ok(Response), not an error. -/
theorem C7_announce_failure_reason :
    (∀ (cid transaction_id : Nat) (buf : List Nat),
      buf.length = 2048 →
      transactionIdRecv buf ≠ transaction_id →
      u32_of_be (buf.getD 12 0) (buf.getD 13 0) (buf.getD 14 0) (buf.getD 15 0)
          < 2147483648 →
      u32_of_be (buf.getD 16 0) (buf.getD 17 0) (buf.getD 18 0) (buf.getD 19 0)
          < 2147483648 →
      ∃ resp, announce_udp (some cid) transaction_id (some buf) = some resp
        ∧ resp.failure_reason = some "Transaction ID\x27s did not match")
    ∧ (∀ (cid transaction_id : Nat), transaction_id ≠ 0 →
      ∃ resp, announce_udp (some cid) transaction_id none = some resp
        ∧ resp.failure_reason = some "Transaction ID\x27s did not match")
    ∧ (∀ cid : Nat,
      ∃ resp, announce_udp (some cid) 0 none = some resp
        ∧ resp.failure_reason = some "Couldn\x27t announce to tracker") := by
  have hz : transactionIdRecv (List.replicate 2048 0) = 0 := rfl
  have hzl : u32_of_be ((List.replicate 2048 0).getD 12 0)
      ((List.replicate 2048 0).getD 13 0) ((List.replicate 2048 0).getD 14 0)
      ((List.replicate 2048 0).getD 15 0) < 2147483648
      ∧ u32_of_be ((List.replicate 2048 0).getD 16 0)
      ((List.replicate 2048 0).getD 17 0) ((List.replicate 2048 0).getD 18 0)
      ((List.replicate 2048 0).getD 19 0) < 2147483648 := by
    constructor <;> decide
  refine ⟨?_, ?_, ?_⟩
  · intro cid transaction_id buf _ hne hle hse
    refine ⟨{ tracker_id := some (toString (i32_val (transactionIdRecv buf))),
              failure_reason := some "Transaction ID\x27s did not match",
              warning_message := none,
              interval := some 9,
              min_interval := none,
              seeder_count := some (u32_of_be (buf.getD 16 0) (buf.getD 17 0)
                (buf.getD 18 0) (buf.getD 19 0)),
              leecher_count := some (u32_of_be (buf.getD 12 0) (buf.getD 13 0)
                (buf.getD 14 0) (buf.getD 15 0)),
              peers := announcePeersLoop (buf.drop 20) }, ?_, rfl⟩
    simp only [announce_udp]
    rw [if_pos (show transaction_id ≠ transactionIdRecv buf from fun h => hne h.symm)]
    rw [if_pos ⟨hle, hse⟩]
  · intro cid transaction_id hne
    refine ⟨{ tracker_id := some (toString (i32_val (transactionIdRecv
                (List.replicate 2048 0)))),
              failure_reason := some "Transaction ID\x27s did not match",
              warning_message := none,
              interval := some 9,
              min_interval := none,
              seeder_count := some (u32_of_be ((List.replicate 2048 0).getD 16 0)
                ((List.replicate 2048 0).getD 17 0) ((List.replicate 2048 0).getD 18 0)
                ((List.replicate 2048 0).getD 19 0)),
              leecher_count := some (u32_of_be ((List.replicate 2048 0).getD 12 0)
                ((List.replicate 2048 0).getD 13 0) ((List.replicate 2048 0).getD 14 0)
                ((List.replicate 2048 0).getD 15 0)),
              peers := announcePeersLoop ((List.replicate 2048 0).drop 20) }, ?_, rfl⟩
    simp only [announce_udp]
    rw [hz, if_pos hne, if_pos hzl]
  · intro cid
    refine ⟨{ tracker_id := some (toString (i32_val (transactionIdRecv
                (List.replicate 2048 0)))),
              failure_reason := some "Couldn\x27t announce to tracker",
              warning_message := none,
              interval := some 9,
              min_interval := none,
              seeder_count := some (u32_of_be ((List.replicate 2048 0).getD 16 0)
                ((List.replicate 2048 0).getD 17 0) ((List.replicate 2048 0).getD 18 0)
                ((List.replicate 2048 0).getD 19 0)),
              leecher_count := some (u32_of_be ((List.replicate 2048 0).getD 12 0)
                ((List.replicate 2048 0).getD 13 0) ((List.replicate 2048 0).getD 14 0)
                ((List.replicate 2048 0).getD 15 0)),
              peers := announcePeersLoop ((List.replicate 2048 0).drop 20) }, ?_, rfl⟩
    simp only [announce_udp]
    rw [hz, if_neg (show ¬ (0 : Nat) ≠ 0 from fun h => h rfl), if_pos hzl]

set_option maxRecDepth 8192 in
/-- Witness for C7: a reply with transaction id 9 against sent id 1; a
timeout with sent id 5; a timeout with sent id 0. -/
theorem C7_announce_failure_reason_witness :
    (announce_udp (some 0) 1
        (some ([0, 0, 0, 0, 0, 0, 0, 9] ++ List.replicate 2040 0))).map
        Response.failure_reason
      = some (some "Transaction ID\x27s did not match")
    ∧ (announce_udp (some 0) 5 none).map Response.failure_reason
      = some (some "Transaction ID\x27s did not match")
    ∧ (announce_udp (some 0) 0 none).map Response.failure_reason
      = some (some "Couldn\x27t announce to tracker") := by
  refine ⟨?_, ?_, ?_⟩
  · obtain ⟨resp, h1, h2⟩ := C7_announce_failure_reason.1 0 1
      ([0, 0, 0, 0, 0, 0, 0, 9] ++ List.replicate 2040 0) (by simp) (by decide)
      (by decide) (by decide)
    rw [h1, Option.map_some', h2]
  · obtain ⟨resp, h1, h2⟩ := C7_announce_failure_reason.2.1 0 5 (by decide)
    rw [h1, Option.map_some', h2]
  · obtain ⟨resp, h1, h2⟩ := C7_announce_failure_reason.2.2 0
    rw [h1, Option.map_some', h2]

/-- Counterexample to C7 as stated: on a read timeout with sent transaction
id 1, the returned failure reason is the transaction-id-mismatch string — the
timeout message was overwritten — and that is not the string indicating the
tracker did not respond. -/
theorem C7_announce_failure_reason_counterexample :
    (announce_udp (some 0) 1 none).map Response.failure_reason
      = some (some "Transaction ID\x27s did not match")
    ∧ some "Transaction ID\x27s did not match"
      ≠ some "Couldn\x27t announce to tracker" := by
  constructor
  · rfl
  · decide

/-- One dictionary entry of the full peers list, as the deserializer sees it:
the `ip` string, the `port` integer, and the optional peer id field that
`RawPeer` does not declare (serde silently drops undeclared fields). -/
structure RawPeer where
  ip : String
  port : Nat
  peer_id : Option String
deriving DecidableEq

/-- The loop of `deserialize_peers::Visitor::visit_seq`: for each raw peer,
parse its `ip` string with the standard-library IP parser (passed here as the
explicit function `parse`, since `std::net::IpAddr::from_str` is outside this
repository); on success push the socket address, on failure `continue`.  The
`peer_id` field is never consulted. -/
def visit_seq (parse : String → Option IpAddr) : List RawPeer → List SocketAddr
  | [] => []
  | r :: rs =>
    match parse r.ip with
    | some ip => SocketAddr.mk ip r.port :: visit_seq parse rs
    | none => visit_seq parse rs

/-- C8: the full-form peer parser returns, in order, one socket address per
entry whose ip string parses (an in-order filterMap), silently skips every
entry whose ip does not parse, and discards the peer id field: erasing all
peer ids leaves the output unchanged, and every parseable entry contributes
its address. -/
theorem C8_full_peer_parsing (parse : String → Option IpAddr)
    (raws : List RawPeer) :
    visit_seq parse raws
      = raws.filterMap (fun r => (parse r.ip).map fun ip => SocketAddr.mk ip r.port)
    ∧ visit_seq parse (raws.map fun r => { r with peer_id := none })
      = visit_seq parse raws
    ∧ (∀ r ∈ raws, ∀ ip, parse r.ip = some ip →
        SocketAddr.mk ip r.port ∈ visit_seq parse raws) := by
  refine ⟨?_, ?_, ?_⟩
  · induction raws with
    | nil => rfl
    | cons r rs ih =>
      simp only [visit_seq, List.filterMap_cons]
      cases hp : parse r.ip with
      | none => simpa [hp] using ih
      | some ip => simpa [hp] using ih
  · induction raws with
    | nil => rfl
    | cons r rs ih =>
      simp only [List.map_cons, visit_seq]
      cases hp : parse r.ip with
      | none => simpa [hp] using ih
      | some ip => simpa [hp] using ih
  · intro r hr ip hip
    induction raws with
    | nil => simp at hr
    | cons q qs ih =>
      rcases List.mem_cons.1 hr with hq | hq
      · subst hq
        simp only [visit_seq, hip]
        exact List.mem_cons_self _ _
      · have hmem := ih hq
        cases hp : parse q.ip with
        | none => simpa [visit_seq, hp] using hmem
        | some ip2 =>
          simp only [visit_seq, hp]
          exact List.mem_cons_of_mem _ hmem

/-- Witness for C8: a parser recognising only the string "10.0.0.1", one
parseable entry carrying a peer id, and one unparseable entry. -/
theorem C8_full_peer_parsing_witness :
    visit_seq
        (fun s => if s = "10.0.0.1" then some (IpAddr.V4 167772161) else none)
        [RawPeer.mk "10.0.0.1" 6881 (some "peer-1"),
         RawPeer.mk "not-an-ip" 80 none]
      = [SocketAddr.mk (IpAddr.V4 167772161) 6881]
    ∧ SocketAddr.mk (IpAddr.V4 167772161) 6881 ∈ visit_seq
        (fun s => if s = "10.0.0.1" then some (IpAddr.V4 167772161) else none)
        [RawPeer.mk "10.0.0.1" 6881 (some "peer-1"),
         RawPeer.mk "not-an-ip" 80 none] := by
  have h := C8_full_peer_parsing
    (fun s => if s = "10.0.0.1" then some (IpAddr.V4 167772161) else none)
    [RawPeer.mk "10.0.0.1" 6881 (some "peer-1"),
     RawPeer.mk "not-an-ip" 80 none]
  refine ⟨?_, ?_⟩
  · rw [h.1]
    rfl
  · exact h.2.2 (RawPeer.mk "10.0.0.1" 6881 (some "peer-1")) (by decide)
      (IpAddr.V4 167772161) (by decide)
